import Mathlib

/-!
Verification of the memory-consistency core of the starkyx AIR framework.

The development shallowly embeds the Rust sources:
* `src/curta/src/chip/memory/pointer/raw.rs` (`RawPointer` and its
  `new`, `from_challenge`, `accumulate`, `accumulate_cubic`, `eval`, `read`),
* `src/curta/src/chip/uint/register.rs` (`MemoryValue for U32Register::compress`),
* `src/curta/src/chip/table/lookup/mod.rs` (`LookupChipConstraint` dispatch),
* `src/curta/src/machine/hash/blake/blake2b/data.rs` (`MemoryArray`),
* `src/curta/src/machine/hash/blake/blake2b/pure.rs` and `air.rs` (the mix
  gadget and its pure reference).

Machine integers are embedded as `Nat` with explicit reduction modulo `2 ^ 64`
where overflow matters; the base field is a generic commutative ring where the
claim is generic, and `ZMod goldilocks` where the concrete field matters.
-/

namespace Starkyx

/-- A base-field ("element") register.  The embedding keeps the identifier and
whether the register lives in trace (row-dependent) storage, which is the only
attribute the embedded code inspects (`ArithmeticExpression::is_trace`). -/
structure ElementRegister where
  id : Nat
  is_trace : Bool
deriving DecidableEq, Repr

/-- An extension-field (cubic) register, kept abstract as an identifier.  A
`RawPointer` stores the register itself, not its value. -/
structure CubicRegister where
  id : Nat
deriving DecidableEq, Repr

/-- A degree-3 extension element given by its three base-field coordinates,
mirroring `CubicElement` from the source. -/
structure CubicElement (F : Type) where
  c0 : F
  c1 : F
  c2 : F
deriving DecidableEq, Repr

/-- Componentwise addition of cubic elements (the parser's `add_extension`). -/
def CubicElement.add {F : Type} [Add F] (x y : CubicElement F) : CubicElement F :=
  ⟨x.c0 + y.c0, x.c1 + y.c1, x.c2 + y.c2⟩

/-- Modelled from the spec: the parser capability `element_from_base_field`
(source file `air/extension/cubic.rs` is not part of the sampled sources) embeds
a base-field value into the extension "as an element with zero non-constant
coordinates". -/
def CubicElement.fromBase {F : Type} [Zero F] (e : F) : CubicElement F :=
  ⟨e, 0, 0⟩

/-- The list of coordinates of a cubic element, mirroring `as_slice`. -/
def CubicElement.toList {F : Type} (x : CubicElement F) : List F :=
  [x.c0, x.c1, x.c2]

/-- `RawPointer` from `chip/memory/pointer/raw.rs`: a challenge register plus
an optional element-register shift and an optional `u32` constant shift (the
`u32` is embedded as a natural number below `2 ^ 32`). -/
structure RawPointer where
  challenge : CubicRegister
  element_shift : Option ElementRegister
  constant_shift : Option Nat
deriving DecidableEq, Repr

/-- `RawPointer::new`: store the given challenge and shifts. -/
def RawPointer.new (challenge : CubicRegister) (element_shift : Option ElementRegister)
    (constant_shift : Option Nat) : RawPointer :=
  ⟨challenge, element_shift, constant_shift⟩

/-- `RawPointer::from_challenge`: a bare pointer with no shifts. -/
def RawPointer.from_challenge (challenge : CubicRegister) : RawPointer :=
  ⟨challenge, none, none⟩

/-- An evaluation environment standing for the constraint parser's view of one
trace row: the value of every cubic register and of every element register. -/
structure EvalEnv (F : Type) where
  cubicVal : CubicRegister → CubicElement F
  elemVal : ElementRegister → F

/-- `RawPointer::eval` from `raw.rs`, lines 80-101: combine the optional
element shift (read from the trace) and the optional `u32` constant shift into
one base-field shift, embed it into the extension, and add it to the
challenge; with no shift the challenge is returned unchanged. -/
def RawPointer.eval {F : Type} [CommRing F] (env : EvalEnv F) (p : RawPointer) :
    CubicElement F :=
  let challenge := env.cubicVal p.challenge
  let shift : Option F :=
    match p.element_shift, p.constant_shift with
    | some e, none => some (env.elemVal e)
    | none, some c => some ((c : F))
    | some e, some c => some (env.elemVal e + (c : F))
    | none, none => none
  let shift_ext := shift.map (fun e => CubicElement.fromBase e)
  (shift_ext.map (fun e => CubicElement.add challenge e)).getD challenge

/-- The combined base-field shift of a pointer in an environment: the element
shift's value (zero if absent) plus the constant shift (zero if absent). -/
def RawPointer.totalShift {F : Type} [CommRing F] (env : EvalEnv F) (p : RawPointer) : F :=
  (p.element_shift.map env.elemVal).getD 0 + ((p.constant_shift.getD 0 : Nat) : F)

/-- The fragment of `ArithmeticExpression` built by the embedded code: field
constants, element registers, sums and products. -/
inductive ArithmeticExpression (F : Type) where
  | const : F → ArithmeticExpression F
  | reg : ElementRegister → ArithmeticExpression F
  | add : ArithmeticExpression F → ArithmeticExpression F → ArithmeticExpression F
  | mul : ArithmeticExpression F → ArithmeticExpression F → ArithmeticExpression F
deriving DecidableEq, Repr

/-- `ArithmeticExpression::is_trace`: whether the expression reads any register
held in trace storage. -/
def ArithmeticExpression.is_trace {F : Type} : ArithmeticExpression F → Bool
  | .const _ => false
  | .reg r => r.is_trace
  | .add a b => a.is_trace || b.is_trace
  | .mul a b => a.is_trace || b.is_trace

/-- Evaluation of an arithmetic expression under an assignment of element
registers. -/
def ArithmeticExpression.evalExpr {F : Type} [CommRing F] (env : ElementRegister → F) :
    ArithmeticExpression F → F
  | .const c => c
  | .reg r => env r
  | .add a b => a.evalExpr env + b.evalExpr env
  | .mul a b => a.evalExpr env * b.evalExpr env

/-- Digest storage classes: `extended` is the row-local trace storage returned
by `alloc_extended`, `global` the once-per-proof storage of `alloc_global`. -/
inductive Storage where
  | extended : Storage
  | global : Storage
deriving DecidableEq, Repr

/-- Modelled from the spec: `CompressedValue` (its source file
`memory/pointer/accumulate.rs` is not among the sampled sources) is the tagged
pre-accumulation payload, a single-field-element expression or an
extension-element expression. -/
inductive CompressedValue (F : Type) where
  | element : ArithmeticExpression F → CompressedValue F
  | cubic : CubicElement (ArithmeticExpression F) → CompressedValue F
deriving DecidableEq, Repr

/-- Modelled from the spec: the `PointerAccumulator` registered by
`accumulate`/`accumulate_cubic` binds the pointer, the compressed value and the
digest register; the embedding also records in which storage class the digest
register was allocated. -/
structure PointerAccumulator (F : Type) where
  ptr : RawPointer
  value : CompressedValue F
  digestStorage : Storage
deriving DecidableEq, Repr

/-- `RawPointer::accumulate` from `raw.rs`, lines 45-61: allocate the digest in
extended (row-local) storage when `value.is_trace()` holds and in global
storage otherwise, then register the accumulator for the element-compressed
value. -/
def RawPointer.accumulate {F : Type} (p : RawPointer) (value : ArithmeticExpression F) :
    PointerAccumulator F :=
  let digest := if value.is_trace then Storage.extended else Storage.global
  { ptr := p, value := CompressedValue.element value, digestStorage := digest }

/-- `RawPointer::accumulate_cubic` from `raw.rs`, lines 63-78: allocate the
digest in extended storage unless every coordinate of the cubic value is
trace-independent, then register the accumulator for the cubic value. -/
def RawPointer.accumulate_cubic {F : Type} (p : RawPointer)
    (value : CubicElement (ArithmeticExpression F)) : PointerAccumulator F :=
  let digest :=
    if !(value.toList.all (fun e => !e.is_trace)) then Storage.extended else Storage.global
  { ptr := p, value := CompressedValue.cubic value, digestStorage := digest }

/-- Whether a pointer itself depends on the trace: its element shift, if any,
is a trace register. -/
def RawPointer.dependsOnTrace (p : RawPointer) : Bool :=
  (p.element_shift.map (fun r => r.is_trace)).getD false

/-- `MemoryArray::<L, R, C>::store_row` from `blake2b/data.rs`, lines 91-110,
restricted to its addressing behaviour: writing `values` for row `row` stores
`values[i]` into flattened cell `row * R + i`.  The memory is a map from
flattened cell index to optionally stored value; timestamp and multiplicity do
not affect addressing and are omitted. -/
def MemoryArray.store_row (R : Nat) (mem : Nat → Option Nat) (row : Nat)
    (values : List Nat) : Nat → Option Nat :=
  values.enum.foldl
    (fun m iv => fun cell => if cell = row * R + iv.1 then some iv.2 else m cell) mem

/-- `MemoryArray::<L, R, C>::get_at` from `blake2b/data.rs`, lines 112-122:
load the flattened cell `row * C + col` (the index is built as
`row * c_const + col` where `c_const` holds `C`). -/
def MemoryArray.get_at (C : Nat) (mem : Nat → Option Nat) (row col : Nat) : Option Nat :=
  mem (row * C + col)

/-- Addition of 64-bit words: `u64::wrapping_add`. -/
def wadd (a b : Nat) : Nat := (a + b) % 2 ^ 64

/-- Bitwise xor of 64-bit words (`^` on `u64`); stays below `2 ^ 64` for
arguments below `2 ^ 64`. -/
def wxor (a b : Nat) : Nat := a ^^^ b

/-- `u64::rotate_right` by `r` bits on 64-bit words. -/
def wror (a r : Nat) : Nat := (a >>> r ||| a <<< (64 - r)) % 2 ^ 64

/-- `BLAKE2BPure::mix` from `blake2b/pure.rs`, lines 131-148, acting on the
four selected work-vector words (the message words are `x` and `y`). -/
def BLAKE2BPure.mix (va vb vc vd x y : Nat) : Nat × Nat × Nat × Nat :=
  let va := wadd (wadd va vb) x
  let vd := wror (wxor vd va) 32
  let vc := wadd vc vd
  let vb := wror (wxor vb vc) 24
  let va := wadd (wadd va vb) y
  let vd := wror (wxor vd va) 16
  let vc := wadd vc vd
  let vb := wror (wxor vb vc) 63
  (va, vb, vc, vd)

/-- `BLAKE2BAir::blake2b_mix` from `blake2b/air.rs`, lines 825-857, read as a
function on 64-bit words: each `builder` operation is the corresponding word
operation.  Note the second step xors `v_d` with the ORIGINAL `v_a` (the code
passes `*v_a`, not `v_a_inter`). -/
def BLAKE2BAir.blake2b_mix (v_a v_b v_c v_d x y : Nat) : Nat × Nat × Nat × Nat :=
  let v_a_inter := wadd (wadd v_a v_b) x
  let v_d_inter := wror (wxor v_d v_a) 32
  let v_c_inter := wadd v_c v_d_inter
  let v_b_inter := wror (wxor v_b v_c_inter) 24
  let v_a_inter2 := wadd (wadd v_a_inter v_b_inter) y
  let v_d_inter2 := wror (wxor v_d_inter v_a_inter2) 16
  let v_c_inter2 := wadd v_c_inter v_d_inter2
  let v_b_inter2 := wror (wxor v_b_inter v_c_inter2) 63
  (v_a_inter2, v_b_inter2, v_c_inter2, v_d_inter2)

end Starkyx

namespace Starkyx

/-- `U32Register` (`ByteArrayRegister<4>` from `chip/uint/register.rs`), seen
through `to_le_bytes` as its four little-endian byte registers. -/
structure U32Register where
  bytes : Fin 4 → ElementRegister

/-- The value expression built by `MemoryValue for U32Register::compress`
(`chip/uint/register.rs`, lines 78-88): starting from
`ArithmeticExpression::zero()`, add `2 ^ (8 i) * byte_i` for each byte in
order, then add `2 ^ 32 * time`; `time` stands for the timestamp's
expression. -/
def U32Register.compressExpression {F : Type} [CommRing F] (r : U32Register)
    (time : ArithmeticExpression F) : ArithmeticExpression F :=
  let acc :=
    (List.finRange 4).foldl
      (fun acc i =>
        ArithmeticExpression.add acc
          (ArithmeticExpression.mul (ArithmeticExpression.const ((2 ^ (8 * i.val) : Nat) : F))
            (ArithmeticExpression.reg (r.bytes i))))
      (ArithmeticExpression.const 0)
  ArithmeticExpression.add acc
    (ArithmeticExpression.mul (ArithmeticExpression.const ((2 ^ 32 : Nat) : F)) time)

/-- `MemoryValue for U32Register::compress`: build the compressed value
expression and route it through `RawPointer::accumulate`. -/
def U32Register.compress {F : Type} [CommRing F] (r : U32Register) (ptr : RawPointer)
    (time : ArithmeticExpression F) : PointerAccumulator F :=
  ptr.accumulate (r.compressExpression time)

/-- The Goldilocks prime `2 ^ 64 - 2 ^ 32 + 1`, the base field used by the
repository (`GoldilocksField` in the tests of `chip/uint/register.rs`). -/
def goldilocks : Nat := 2 ^ 64 - 2 ^ 32 + 1

/-- The natural-number value of the `(value, timestamp)` encoding built by
`U32Register::compress`: the four bytes at bases `2 ^ (8 i)` plus the
timestamp at base `2 ^ 32`. -/
def encodeU32 (b : Fin 4 → Nat) (t : Nat) : Nat :=
  (∑ i : Fin 4, 2 ^ (8 * (i : Nat)) * b i) + 2 ^ 32 * t

/-- Modelled from the spec: `RawPointerKey` (file `memory/pointer/key.rs` is
not among the sampled sources) pairs the challenge register with the concrete
combined shift, "a key comparable for equality". -/
structure RawPointerKey (F : Type) where
  challenge : CubicRegister
  shift : F
deriving DecidableEq, Repr

/-- The witness-time view of the trace: the concrete value of every element
register at every row (`TraceWriter::read`). -/
def TraceWriter (F : Type) : Type := ElementRegister → Nat → F

/-- `RawPointer::read` from `raw.rs`, lines 103-114: read the element shift's
concrete value at the row (zero if absent), add the constant shift embedded in
the field (zero if absent), and pair the total with the challenge register. -/
def RawPointer.read {F : Type} [CommRing F] (p : RawPointer) (writer : TraceWriter F)
    (row_index : Nat) : RawPointerKey F :=
  let element_shift := (p.element_shift.map (fun s => writer s row_index)).getD 0
  let constant_shift := (p.constant_shift.map (fun x => (x : F))).getD 0
  ⟨p.challenge, element_shift + constant_shift⟩

/-- Modelled from the spec: the looking side of the log-derivative lookup sum,
`Σ 1 / (β - looking_i)` (the lookup constraint internals live in
`chip/table/lookup/log_der`, which is not among the sampled sources). -/
def logDerivLookingSum {K : Type} [Field K] (β : K) (looking : List K) : K :=
  (looking.map (fun x => (β - x)⁻¹)).sum

/-- Modelled from the spec: the looked-up side of the log-derivative lookup
sum, `Σ multiplicity_j / (β - looked_up_j)` over (entry, multiplicity) pairs. -/
def logDerivLookedUpSum {K : Type} [Field K] (β : K) (table : List (K × K)) : K :=
  (table.map (fun p => p.2 * (β - p.1)⁻¹)).sum

/-- Modelled from the spec: the value of the global lookup constraint, which
the protocol requires to be zero. -/
def lookupConstraintValue {K : Type} [Field K] (β : K) (looking : List K)
    (table : List (K × K)) : K :=
  logDerivLookingSum β looking - logDerivLookedUpSum β table

/-- Modelled from the spec: one looking entry together with the auxiliary
register witnessing its reciprocal. -/
structure LookingPair (K : Type) where
  entry : K
  aux : K

/-- Modelled from the spec: one looked-up entry with its multiplicity register
and the auxiliary register witnessing `multiplicity / (β - entry)`. -/
structure LookedUpTriple (K : Type) where
  entry : K
  multiplicity : K
  aux : K

/-- Modelled from the spec: the per-row data of one lookup table — the looking
entries and the looked-up entries visible on that row. -/
structure LookupRow (K : Type) where
  looking : List (LookingPair K)
  lookedUp : List (LookedUpTriple K)

/-- Modelled from the spec: the multiplicative side constraint
`aux * (β - entry) == 1` on the looking side. -/
def lookingAuxConstraint {K : Type} [Field K] (β : K) (p : LookingPair K) : Prop :=
  p.aux * (β - p.entry) = 1

/-- Modelled from the spec: the multiplicative side constraint
`aux * (β - entry) == multiplicity` on the looked-up side. -/
def lookedUpAuxConstraint {K : Type} [Field K] (β : K) (q : LookedUpTriple K) : Prop :=
  q.aux * (β - q.entry) = q.multiplicity

/-- All auxiliary side constraints of one row. -/
def LookupRow.auxConstraintsHold {K : Type} [Field K] (β : K) (r : LookupRow K) : Prop :=
  (∀ p ∈ r.looking, lookingAuxConstraint β p) ∧ (∀ q ∈ r.lookedUp, lookedUpAuxConstraint β q)

/-- The per-row increment of the running sum as the constraint system states
it, through the auxiliary registers. -/
def LookupRow.auxTerm {K : Type} [Field K] (r : LookupRow K) : K :=
  (r.looking.map (fun p => p.aux)).sum - (r.lookedUp.map (fun q => q.aux)).sum

/-- The per-row increment as the spec's rational identity states it:
`Σ 1 / (β - looking_i) - Σ multiplicity_j / (β - looked_up_j)`. -/
def LookupRow.rationalTerm {K : Type} [Field K] (β : K) (r : LookupRow K) : K :=
  (r.looking.map (fun p => (β - p.entry)⁻¹)).sum -
    (r.lookedUp.map (fun q => q.multiplicity * (β - q.entry)⁻¹)).sum

/-- `LookupChipConstraint` from `chip/table/lookup/mod.rs`: the tagged union of
the scalar-keyed (`Element`) and extension-keyed (`CubicElement`) lookup
constraint variants. -/
inductive LookupChipConstraint (A B : Type) where
  | element : A → LookupChipConstraint A B
  | cubicElement : B → LookupChipConstraint A B

/-- `AirConstraint::eval` for `LookupChipConstraint` (`lookup/mod.rs`, lines
26-31): dispatch on the variant the constraint instance carries. -/
def LookupChipConstraint.eval {A B P : Type} (evalElement : A → P) (evalCubic : B → P) :
    LookupChipConstraint A B → P
  | .element log => evalElement log
  | .cubicElement log => evalCubic log

instance {K : Type} [Field K] [DecidableEq K] (β : K) (p : LookingPair K) :
    Decidable (lookingAuxConstraint β p) := by
  unfold lookingAuxConstraint
  infer_instance

instance {K : Type} [Field K] [DecidableEq K] (β : K) (q : LookedUpTriple K) :
    Decidable (lookedUpAuxConstraint β q) := by
  unfold lookedUpAuxConstraint
  infer_instance

instance {K : Type} [Field K] [DecidableEq K] (β : K) (r : LookupRow K) :
    Decidable (LookupRow.auxConstraintsHold β r) := by
  unfold LookupRow.auxConstraintsHold
  infer_instance

instance fact_prime_five : Fact (Nat.Prime 5) := ⟨by norm_num⟩

/-- C1: `RawPointer::eval` returns the challenge unchanged when both shifts are
absent, and otherwise returns `challenge + embed(element_shift + constant_shift)`
where the combined base-field shift is embedded into the extension with zero
non-constant coordinates before being added to the extension-valued challenge. -/
theorem c1_eval_is_challenge_plus_embedded_shift (F : Type) [CommRing F]
    (env : EvalEnv F) (p : RawPointer) :
    RawPointer.eval env p =
      if p.element_shift = none ∧ p.constant_shift = none then
        env.cubicVal p.challenge
      else
        CubicElement.add (env.cubicVal p.challenge)
          ⟨RawPointer.totalShift env p, 0, 0⟩ := by
  rcases p with ⟨ch, es, cs⟩
  rcases es with _ | e <;> rcases cs with _ | c <;>
    simp [RawPointer.eval, RawPointer.totalShift, CubicElement.fromBase]

/-- C2 counterexample: a pointer whose element shift is a trace register (so
the pointer depends on the trace) accumulating a constant value still gets its
digest allocated in global storage, contradicting the claim that such a digest
is never allocated globally. -/
theorem c2_counterexample_trace_pointer_global_digest :
    RawPointer.dependsOnTrace ⟨⟨0⟩, some ⟨0, true⟩, none⟩ = true ∧
    (RawPointer.accumulate (F := ℚ) ⟨⟨0⟩, some ⟨0, true⟩, none⟩
        (ArithmeticExpression.const 0)).digestStorage = Storage.global := by
  exact ⟨rfl, rfl⟩

/-- C2 (amended): the digest returned by `accumulate`/`accumulate_cubic` is in
extended (row-local) storage exactly when the value expression is
trace-dependent, and in global storage otherwise; the pointer's own registers
are not consulted, so the storage choice is independent of the pointer. -/
theorem c2_storage_iff_value_is_trace (F : Type) (p q : RawPointer)
    (v : ArithmeticExpression F) (cv : CubicElement (ArithmeticExpression F)) :
    ((RawPointer.accumulate p v).digestStorage = Storage.extended ↔ v.is_trace = true) ∧
    ((RawPointer.accumulate_cubic p cv).digestStorage = Storage.extended ↔
      cv.toList.any (fun e => e.is_trace) = true) ∧
    (RawPointer.accumulate p v).digestStorage = (RawPointer.accumulate q v).digestStorage ∧
    (RawPointer.accumulate_cubic p cv).digestStorage =
      (RawPointer.accumulate_cubic q cv).digestStorage := by
  refine ⟨?_, ?_, rfl, rfl⟩
  · cases h : v.is_trace <;> simp [RawPointer.accumulate, h]
  · cases h : cv.toList.any (fun e => e.is_trace) <;>
      simp [RawPointer.accumulate_cubic, List.all_eq_not_any_not, h]

/-- C3: the compressed value built by `U32Register::compress` evaluates to the
sum over the four bytes of `2 ^ (8 i) * byte_i` plus `2 ^ 32 * timestamp`, and
`compress` routes exactly this expression through `RawPointer::accumulate`. -/
theorem c3_compress_closed_form_and_routing (F : Type) [CommRing F]
    (env : ElementRegister → F) (r : U32Register) (ptr : RawPointer)
    (time : ArithmeticExpression F) :
    U32Register.compress r ptr time = RawPointer.accumulate ptr (r.compressExpression time) ∧
    ArithmeticExpression.evalExpr env (r.compressExpression time) =
      (∑ i : Fin 4, (2 : F) ^ (8 * (i : Nat)) * env (r.bytes i)) +
        (2 : F) ^ 32 * time.evalExpr env := by
  refine ⟨rfl, ?_⟩
  have h4 : List.finRange 4 = [(0 : Fin 4), 1, 2, 3] := rfl
  have h3 : ((3 : Fin 4) : Nat) = 3 := rfl
  simp [U32Register.compressExpression, h4, ArithmeticExpression.evalExpr,
    Fin.sum_univ_four, h3]
  ring

/-- Closed form of `encodeU32` as a base-256 / base-`2 ^ 32` positional sum. -/
theorem encodeU32_eq (b : Fin 4 → Nat) (t : Nat) :
    encodeU32 b t = b 0 + 256 * b 1 + 65536 * b 2 + 16777216 * b 3 + 4294967296 * t := by
  have h3 : ((3 : Fin 4) : Nat) = 3 := rfl
  simp [encodeU32, Fin.sum_univ_four, h3]

/-- In-range encodings stay below the Goldilocks modulus. -/
theorem encodeU32_lt_goldilocks (b : Fin 4 → Nat) (t : Nat) (hb : ∀ i, b i < 256)
    (ht : t < 2 ^ 32 - 1) : encodeU32 b t < goldilocks := by
  have h0 := hb 0
  have h1 := hb 1
  have h2 := hb 2
  have h3 := hb 3
  rw [encodeU32_eq]
  unfold goldilocks
  omega

/-- C4: the `(value, timestamp)` encoding is injective on in-range inputs — if
two encodings of four-byte values and in-range timestamps agree as Goldilocks
field elements, the byte values and the timestamps agree exactly. -/
theorem c4_encoding_injective (b b' : Fin 4 → Nat) (t t' : Nat)
    (hb : ∀ i, b i < 256) (hb' : ∀ i, b' i < 256)
    (ht : t < 2 ^ 32 - 1) (ht' : t' < 2 ^ 32 - 1)
    (h : ((encodeU32 b t : Nat) : ZMod goldilocks) = ((encodeU32 b' t' : Nat) : ZMod goldilocks)) :
    b = b' ∧ t = t' := by
  have hmod := (ZMod.natCast_eq_natCast_iff _ _ _).mp h
  have hlt := encodeU32_lt_goldilocks b t hb ht
  have hlt' := encodeU32_lt_goldilocks b' t' hb' ht'
  have heq : encodeU32 b t = encodeU32 b' t' := by
    have := hmod
    unfold Nat.ModEq at this
    rwa [Nat.mod_eq_of_lt hlt, Nat.mod_eq_of_lt hlt'] at this
  rw [encodeU32_eq, encodeU32_eq] at heq
  have h0 := hb 0
  have h1 := hb 1
  have h2 := hb 2
  have h3 := hb 3
  have h0' := hb' 0
  have h1' := hb' 1
  have h2' := hb' 2
  have h3' := hb' 3
  have key : b 0 = b' 0 ∧ b 1 = b' 1 ∧ b 2 = b' 2 ∧ b 3 = b' 3 ∧ t = t' := by omega
  refine ⟨funext fun i => ?_, key.2.2.2.2⟩
  fin_cases i
  · exact key.1
  · exact key.2.1
  · exact key.2.2.1
  · exact key.2.2.2.1

/-- C4 witness: the injectivity theorem applied at a concrete in-range input. -/
theorem c4_encoding_injective_witness :
    (7 : Nat) < 256 ∧ (2 : Nat) < 2 ^ 32 - 1 ∧
    ((fun _ : Fin 4 => 7) = (fun _ : Fin 4 => 7) ∧ (2 : Nat) = 2) :=
  ⟨by decide, by decide,
    c4_encoding_injective (fun _ : Fin 4 => 7) (fun _ : Fin 4 => 7) 2 2
      (fun _ => (by decide : (7 : Nat) < 256)) (fun _ => (by decide : (7 : Nat) < 256))
      (by decide) (by decide) rfl⟩

/-- C5: `RawPointer::read` is the witness-time mirror of `eval` — it returns
the key pairing the challenge register with the concrete element-shift value at
the row (zero if absent) plus the field embedding of the constant shift (zero
if absent); consequently two pointers with the same challenge whose total
concrete shifts agree produce equal keys regardless of how the shift is split
between the element and constant parts. -/
theorem c5_read_mirrors_eval (F : Type) [CommRing F] (writer : TraceWriter F)
    (p q : RawPointer) (i j : Nat)
    (hch : p.challenge = q.challenge)
    (hshift :
      (p.element_shift.map (fun s => writer s i)).getD 0 + ((p.constant_shift.getD 0 : Nat) : F) =
      (q.element_shift.map (fun s => writer s j)).getD 0 + ((q.constant_shift.getD 0 : Nat) : F)) :
    RawPointer.read p writer i =
      ⟨p.challenge,
        (p.element_shift.map (fun s => writer s i)).getD 0 +
          ((p.constant_shift.getD 0 : Nat) : F)⟩ ∧
    RawPointer.read p writer i = RawPointer.read q writer j := by
  have hread : ∀ (r : RawPointer) (k : Nat),
      RawPointer.read r writer k =
        ⟨r.challenge,
          (r.element_shift.map (fun s => writer s k)).getD 0 +
            ((r.constant_shift.getD 0 : Nat) : F)⟩ := by
    intro r k
    rcases r with ⟨ch, es, cs⟩
    rcases cs with _ | c <;> simp [RawPointer.read]
  refine ⟨hread p i, ?_⟩
  rw [hread p i, hread q j, hch, hshift]

/-- C5 witness: two concretely different splittings of the same total shift
(constant `5` versus trace value `3` plus constant `2`) give equal keys. -/
theorem c5_read_mirrors_eval_witness :
    ((RawPointer.mk ⟨7⟩ none (some 5)).challenge =
      (RawPointer.mk ⟨7⟩ (some ⟨1, true⟩) (some 2)).challenge) ∧
    (((RawPointer.mk ⟨7⟩ none (some 5)).element_shift.map
        (fun s => (fun r _ => if r.id = 1 then (3 : Int) else 0) s 0)).getD 0 +
      (((RawPointer.mk ⟨7⟩ none (some 5)).constant_shift.getD 0 : Nat) : Int) =
     ((RawPointer.mk ⟨7⟩ (some ⟨1, true⟩) (some 2)).element_shift.map
        (fun s => (fun r _ => if r.id = 1 then (3 : Int) else 0) s 4)).getD 0 +
      (((RawPointer.mk ⟨7⟩ (some ⟨1, true⟩) (some 2)).constant_shift.getD 0 : Nat) : Int)) ∧
    RawPointer.read (RawPointer.mk ⟨7⟩ none (some 5))
        (fun r _ => if r.id = 1 then (3 : Int) else 0) 0 =
      RawPointer.read (RawPointer.mk ⟨7⟩ (some ⟨1, true⟩) (some 2))
        (fun r _ => if r.id = 1 then (3 : Int) else 0) 4 := by
  refine ⟨rfl, by decide, ?_⟩
  exact (c5_read_mirrors_eval Int (fun r _ => if r.id = 1 then (3 : Int) else 0)
    (RawPointer.mk ⟨7⟩ none (some 5)) (RawPointer.mk ⟨7⟩ (some ⟨1, true⟩) (some 2))
    0 4 rfl (by decide)).2

/-- Counting a list's entries against a duplicate-free superlist: summing a
function over the list equals summing it over the superlist weighted by
multiplicities. -/
theorem sum_map_eq_count_weighted_sum {K : Type} [CommRing K] [DecidableEq K] (g : K → K)
    (looking entries : List K) (hnodup : entries.Nodup)
    (hsub : ∀ x ∈ looking, x ∈ entries) :
    (looking.map g).sum = (entries.map (fun y => (looking.count y : K) * g y)).sum := by
  have hsubF : looking.toFinset ⊆ entries.toFinset := by
    intro x hx
    exact List.mem_toFinset.mpr (hsub x (List.mem_toFinset.mp hx))
  have hlist : (entries.map (fun y => (looking.count y : K) * g y)).sum =
      ∑ x ∈ entries.toFinset, (looking.count x : K) * g x := by
    rw [Finset.sum_list_map_count]
    exact Finset.sum_congr rfl (fun x hx => by
      rw [List.count_eq_one_of_mem hnodup (List.mem_toFinset.mp hx), one_nsmul])
  calc (looking.map g).sum
      = ∑ x ∈ looking.toFinset, looking.count x • g x := Finset.sum_list_map_count looking g
    _ = ∑ x ∈ looking.toFinset, (looking.count x : K) * g x :=
        Finset.sum_congr rfl (fun x _ => nsmul_eq_mul _ _)
    _ = ∑ x ∈ entries.toFinset, (looking.count x : K) * g x := by
        refine Finset.sum_subset hsubF (fun x _ hnx => ?_)
        rw [List.count_eq_zero_of_not_mem (fun hm => hnx (List.mem_toFinset.mpr hm))]
        simp
    _ = (entries.map (fun y => (looking.count y : K) * g y)).sum := hlist.symm

/-- C6: lookup completeness — when the looking multiset is contained in the
looked-up entries with matching multiplicities, the log-derivative constraint
value is exactly zero for every challenge distinct from all entries. -/
theorem c6_lookup_completeness (K : Type) [Field K] [DecidableEq K] (β : K)
    (looking entries : List K)
    (hnodup : entries.Nodup) (hsub : ∀ x ∈ looking, x ∈ entries)
    (hβ : ∀ x ∈ entries, β ≠ x) :
    lookupConstraintValue β looking
      (entries.map (fun y => (y, (looking.count y : K)))) = 0 := by
  unfold lookupConstraintValue logDerivLookingSum logDerivLookedUpSum
  rw [sub_eq_zero, List.map_map]
  have h := sum_map_eq_count_weighted_sum (fun x => (β - x)⁻¹) looking entries hnodup hsub
  rw [h]
  rfl

/-- C6 witness: `looking = [1, 1, 2]` inside `entries = [1, 2]` with counted
multiplicities makes the constraint vanish at the challenge `β = 5`. -/
theorem c6_lookup_completeness_witness :
    ([1, 2] : List ℚ).Nodup ∧ (∀ x ∈ ([1, 1, 2] : List ℚ), x ∈ ([1, 2] : List ℚ)) ∧
    (∀ x ∈ ([1, 2] : List ℚ), (5 : ℚ) ≠ x) ∧
    lookupConstraintValue (5 : ℚ) [1, 1, 2]
      (([1, 2] : List ℚ).map (fun y => (y, (([1, 1, 2] : List ℚ).count y : ℚ)))) = 0 :=
  ⟨by decide, by decide, by decide,
    c6_lookup_completeness ℚ 5 [1, 1, 2] [1, 2] (by decide) (by decide) (by decide)⟩

/-- When the auxiliary side constraints hold and the challenge avoids the
looked-up entries, the constraint system's per-row increment coincides with
the rational per-row increment. -/
theorem auxTerm_eq_rationalTerm {K : Type} [Field K] (β : K) (r : LookupRow K)
    (haux : LookupRow.auxConstraintsHold β r)
    (hne : ∀ q ∈ r.lookedUp, β ≠ q.entry) :
    LookupRow.auxTerm r = LookupRow.rationalTerm β r := by
  unfold LookupRow.auxTerm LookupRow.rationalTerm
  have h1 : r.looking.map (fun p => p.aux) = r.looking.map (fun p => (β - p.entry)⁻¹) :=
    List.map_congr_left (fun p hp => eq_inv_of_mul_eq_one_left (haux.1 p hp))
  have h2 : r.lookedUp.map (fun q => q.aux) =
      r.lookedUp.map (fun q => q.multiplicity * (β - q.entry)⁻¹) := by
    refine List.map_congr_left (fun q hq => ?_)
    have hd : β - q.entry ≠ 0 := sub_ne_zero.mpr (hne q hq)
    exact (eq_mul_inv_iff_mul_eq₀ hd).mpr (haux.2 q hq)
  rw [h1, h2]

/-- C7: the lookup engine's running sum — if the auxiliary constraints hold on
every row, the running register starts at zero, each row satisfies the
aux-based transition, and the global constraint forces the final value to
zero, then every transition equals the spec's rational recurrence
`S_next = S + Σ 1/(β - looking) - Σ mult/(β - looked_up)` and the rational
per-row terms sum to zero; moreover the chip-level constraint dispatches the
scalar-keyed and extension-keyed variants to their own evaluation. -/
theorem c7_lookup_running_sum (K : Type) [Field K] (β : K) (rows : List (LookupRow K))
    (S : Nat → K)
    (haux : ∀ r ∈ rows, LookupRow.auxConstraintsHold β r)
    (hne : ∀ r ∈ rows, ∀ q ∈ r.lookedUp, β ≠ q.entry)
    (hS0 : S 0 = 0)
    (hstep : ∀ i (h : i < rows.length), S (i + 1) = S i + LookupRow.auxTerm (rows.get ⟨i, h⟩))
    (hglobal : S rows.length = 0)
    {A B : Type} (evalElement : A → K) (evalCubic : B → K) (a : A) (b : B) :
    (∀ i (h : i < rows.length),
      S (i + 1) = S i + LookupRow.rationalTerm β (rows.get ⟨i, h⟩)) ∧
    (rows.map (LookupRow.rationalTerm β)).sum = 0 ∧
    LookupChipConstraint.eval evalElement evalCubic (LookupChipConstraint.element a) =
      evalElement a ∧
    LookupChipConstraint.eval evalElement evalCubic (LookupChipConstraint.cubicElement b) =
      evalCubic b := by
  have hpoint : ∀ i (h : i < rows.length),
      LookupRow.auxTerm (rows.get ⟨i, h⟩) = LookupRow.rationalTerm β (rows.get ⟨i, h⟩) := by
    intro i h
    have hmem : rows.get ⟨i, h⟩ ∈ rows := List.get_mem rows i h
    exact auxTerm_eq_rationalTerm β _ (haux _ hmem) (hne _ hmem)
  refine ⟨fun i h => by rw [hstep i h, hpoint i h], ?_, rfl, rfl⟩
  have hmapeq : rows.map (LookupRow.rationalTerm β) = rows.map LookupRow.auxTerm := by
    refine List.map_congr_left (fun r hr => ?_)
    exact (auxTerm_eq_rationalTerm β r (haux r hr) (hne r hr)).symm
  rw [hmapeq]
  have htake : ∀ n, n ≤ rows.length → S n = ((rows.map LookupRow.auxTerm).take n).sum := by
    intro n
    induction n with
    | zero => intro _; simpa using hS0
    | succ k ih =>
        intro hk
        have hk' : k < rows.length := Nat.lt_of_succ_le hk
        have hk'' : k < (rows.map LookupRow.auxTerm).length := by
          simpa using hk'
        rw [List.sum_take_succ _ k hk'', ← ih (Nat.le_of_lt hk'), hstep k hk']
        congr 1
        simp [List.getElem_map]
  have hfinal := htake rows.length (Nat.le_refl _)
  rw [hglobal] at hfinal
  have hlen : (rows.map LookupRow.auxTerm).length = rows.length := by simp
  rw [← hlen, List.take_length] at hfinal
  exact hfinal.symm

/-- C7 witness: a one-row table over `ZMod 5` with matching looking and
looked-up entries, the running sum constantly zero, and concrete dispatch
instances. -/
theorem c7_lookup_running_sum_witness :
    (∀ r ∈ [LookupRow.mk (K := ZMod 5) [⟨1, 1⟩] [⟨1, 1, 1⟩]],
      LookupRow.auxConstraintsHold 2 r) ∧
    (∀ r ∈ [LookupRow.mk (K := ZMod 5) [⟨1, 1⟩] [⟨1, 1, 1⟩]],
      ∀ q ∈ r.lookedUp, (2 : ZMod 5) ≠ q.entry) ∧
    ((fun _ : Nat => (0 : ZMod 5)) 0 = 0) ∧
    (∀ i (h : i < [LookupRow.mk (K := ZMod 5) [⟨1, 1⟩] [⟨1, 1, 1⟩]].length),
      (fun _ : Nat => (0 : ZMod 5)) (i + 1) =
        (fun _ : Nat => (0 : ZMod 5)) i +
          LookupRow.auxTerm ([LookupRow.mk (K := ZMod 5) [⟨1, 1⟩] [⟨1, 1, 1⟩]].get ⟨i, h⟩)) ∧
    (([LookupRow.mk (K := ZMod 5) [⟨1, 1⟩] [⟨1, 1, 1⟩]].map
        (LookupRow.rationalTerm (2 : ZMod 5))).sum = 0 ∧
      LookupChipConstraint.eval (fun n : Nat => (n : ZMod 5)) (fun n : Nat => (n : ZMod 5))
        (LookupChipConstraint.element 3) = ((3 : Nat) : ZMod 5) ∧
      LookupChipConstraint.eval (fun n : Nat => (n : ZMod 5)) (fun n : Nat => (n : ZMod 5))
        (LookupChipConstraint.cubicElement 4) = ((4 : Nat) : ZMod 5)) := by
  refine ⟨by decide, by decide, rfl, by decide, ?_, rfl, rfl⟩
  exact (c7_lookup_running_sum (ZMod 5) 2 [LookupRow.mk [⟨1, 1⟩] [⟨1, 1, 1⟩]]
    (fun _ : Nat => (0 : ZMod 5)) (by decide) (by decide) rfl (by decide) rfl
    (fun n : Nat => (n : ZMod 5)) (fun n : Nat => (n : ZMod 5)) 3 4).2.1

/-- C8: in `MemoryArray<L, 8, 4>` (the shape of `v_indices` and
`v_last_write_ages`), storing row `1` writes `values[0]` into flattened cell
`1 * 8 + 0 = 8`, while `get_at` for row `1`, column `0` reads flattened cell
`1 * 4 + 0 = 4`, which the store never wrote — the store/load pair does not
address the same cell when `R ≠ C`. -/
theorem c8_store_row_get_at_mismatch :
    MemoryArray.store_row 8 (fun _ => none) 1 [10, 11, 12, 13] 8 = some 10 ∧
    MemoryArray.get_at 4 (MemoryArray.store_row 8 (fun _ => none) 1 [10, 11, 12, 13]) 1 0 =
      none ∧
    MemoryArray.get_at 4 (MemoryArray.store_row 8 (fun _ => none) 1 [10, 11, 12, 13]) 1 0 ≠
      some 10 := by
  refine ⟨rfl, rfl, by decide⟩

/-- C9: `BLAKE2BAir::blake2b_mix` does not compute the same words as
`BLAKE2BPure::mix` — already on input `(0, 0, 0, 0, 1, 0)` the air gadget xors
`v_d` with the original `v_a` where the pure reference uses the freshly
updated `v_a`, and the four output words differ. -/
theorem c9_air_mix_differs_from_pure_mix :
    BLAKE2BPure.mix 0 0 0 0 1 0 =
      (257, 144678146619343360, 72339073309671424, 72339069014704128) ∧
    BLAKE2BAir.blake2b_mix 0 0 0 0 1 0 =
      (1, 562949953421312, 281474976710656, 281474976710656) ∧
    BLAKE2BAir.blake2b_mix 0 0 0 0 1 0 ≠ BLAKE2BPure.mix 0 0 0 0 1 0 := by
  refine ⟨by decide, by decide, by decide⟩

/-- C10: the only shift configurations a pointer can be constructed with are
`u32` constants, and every `u32` value is canonically representable in the
Goldilocks field (so no malformed-shift failure can surface at proof time);
`RawPointer::new` and `RawPointer::from_challenge` store exactly the given
challenge and shifts. -/
theorem c10_construction_stores_fields_and_u32_shifts_representable
    (ch : CubicRegister) (es : Option ElementRegister) (cs : Option Nat) :
    (∀ c : Nat, c < 2 ^ 32 → ((c : ZMod goldilocks)).val = c) ∧
    RawPointer.new ch es cs = RawPointer.mk ch es cs ∧
    RawPointer.from_challenge ch = RawPointer.mk ch none none := by
  refine ⟨fun c hc => ZMod.val_cast_of_lt ?_, rfl, rfl⟩
  have h32 : (2 : Nat) ^ 32 < goldilocks := by decide
  exact Nat.lt_trans hc h32

/-- C10 witness: the construction theorem applied to the shift value `5`. -/
theorem c10_construction_witness :
    (5 : Nat) < 2 ^ 32 ∧ ((5 : Nat) : ZMod goldilocks).val = 5 ∧
    RawPointer.new ⟨0⟩ none (some 5) = RawPointer.mk ⟨0⟩ none (some 5) ∧
    RawPointer.from_challenge ⟨0⟩ = RawPointer.mk ⟨0⟩ none none :=
  ⟨by decide,
    (c10_construction_stores_fields_and_u32_shifts_representable ⟨0⟩ none (some 5)).1 5
      (by decide),
    (c10_construction_stores_fields_and_u32_shifts_representable ⟨0⟩ none (some 5)).2.1,
    (c10_construction_stores_fields_and_u32_shifts_representable ⟨0⟩ none (some 5)).2.2⟩

end Starkyx
